import Mathlib

/-!
Verification of the session-registry and broadcast-relay semantics of
`src/bridge_sim.py` (a Flask-SocketIO bridge simulator).

The embedding follows the source directly:
* `users` is a Python dict from session-id strings to `{station, name}`
  records; Python dicts (CPython >= 3.7) preserve insertion order and
  overwrite values in place, which `dictInsert` on an association list models.
* `handle_join` reads the keys `station`, `name` and `session_id` from the
  inbound payload (a `KeyError` on a missing key is modelled as `none`),
  stores the record, and broadcasts the whole registry as `update_users`.
* `handle_power` re-broadcasts the inbound payload unchanged as
  `power_update`.
* `VEHICLES` is the static vehicle catalog, part of the module state but
  never touched by either handler.
-/

namespace BridgeSim

/-- The record stored in the `users` dict by `handle_join`
(src/bridge_sim.py lines 28-31): exactly a `station` and a `name`. -/
structure UserRecord where
  station : String
  name : String
deriving DecidableEq, Repr

/-- The `users` dict (src/bridge_sim.py line 20), as an insertion-ordered
association list, the model of a CPython string-keyed dict. -/
abbrev Registry := List (String × UserRecord)

/-- Dict lookup `d[k]` on a string-keyed association list. -/
def lookupKey {β : Type} : List (String × β) → String → Option β
  | [], _ => none
  | (k0, v) :: rest, k => if k0 = k then some v else lookupKey rest k

/-- Dict store `d[k] = v` on an ordered association list: an existing key is
overwritten in place, a new key is appended at the end, matching CPython
dict insertion-order semantics. -/
def dictInsert (k : String) (v : UserRecord) : Registry → Registry
  | [] => [(k, v)]
  | (k0, v0) :: rest =>
      if k0 = k then (k, v) :: rest else (k0, v0) :: dictInsert k v rest

/-- JSON-like values: the shape of an arbitrary inbound `power_update`
payload, which the server treats as an uninterpreted blob. -/
inductive JValue where
  | str (s : String)
  | num (n : Int)
  | bool (b : Bool)
  | arr (xs : List JValue)
  | obj (fields : List (String × JValue))

/-- The payload of an outbound `emit`: either the full `users` registry
snapshot (for `update_users`) or a passed-through power payload. -/
inductive EmitPayload where
  | usersSnapshot (r : Registry)
  | powerData (p : JValue)

/-- One outbound `emit(event, payload, broadcast=...)` call.  With
`broadcast := true` flask-socketio delivers the event to every connected
client, the sender included. -/
structure Emit where
  event : String
  payload : EmitPayload
  broadcast : Bool

/-- `handle_join` (src/bridge_sim.py lines 26-32).  The record
`{'station': data['station'], 'name': data['name']}` is evaluated first;
then the store `users[data['session_id']] = ...` runs; then
`emit('update_users', users, broadcast=True)`.  A missing key raises
`KeyError` before the store, modelled as `none`: no mutation, no emit. -/
def handle_join (data : List (String × String)) (users : Registry) :
    Option (Registry × Emit) :=
  match lookupKey data "station", lookupKey data "name",
      lookupKey data "session_id" with
  | some st, some nm, some sid =>
      let users1 := dictInsert sid (UserRecord.mk st nm) users
      some (users1, Emit.mk "update_users" (EmitPayload.usersSnapshot users1) true)
  | _, _, _ => none

/-- `handle_power` (src/bridge_sim.py lines 34-37): re-emits the inbound
payload unchanged as `power_update` with `broadcast=True`. -/
def handle_power (data : JValue) : Emit :=
  Emit.mk "power_update" (EmitPayload.powerData data) true

/-- A static vehicle catalog entry (src/bridge_sim.py lines 10-17). -/
structure VehicleRecord where
  name : String
  type : String
  shields : Int
  weapons : List String
deriving DecidableEq, Repr

/-- The `VEHICLES` constant (src/bridge_sim.py lines 10-17). -/
def VEHICLES : List (String × VehicleRecord) :=
  [("millennium_falcon",
    VehicleRecord.mk "Millennium Falcon" "Freighter" 100
      ["Quad Laser Cannons", "Concussion Missiles"])]

/-- The module-level mutable state of the server process: the vehicle
catalog and the `users` registry. -/
structure ServerState where
  vehicles : List (String × VehicleRecord)
  users : Registry
deriving DecidableEq

/-- An inbound socket event: `join` with a string-valued payload dict, or
`power_update` with an arbitrary payload. -/
inductive Event where
  | join (data : List (String × String))
  | power_update (data : JValue)

/-- Dispatch of one inbound event to its handler.  `none` models an
unhandled `KeyError` escaping the handler. -/
def step (s : ServerState) : Event → Option (ServerState × Emit)
  | Event.join data =>
      match handle_join data s.users with
      | some (u, e) => some (ServerState.mk s.vehicles u, e)
      | none => none
  | Event.power_update data => some (s, handle_power data)

/-- Processing a whole sequence of inbound events, one at a time to
completion (the server's single-threaded event loop).  A faulting handler
leaves the state untouched and the server keeps serving later events. -/
def run (s : ServerState) : List Event → ServerState
  | [] => s
  | e :: rest =>
      match step s e with
      | some (s1, _) => run s1 rest
      | none => run s rest

/-- The broadcasts produced while processing a sequence of inbound events. -/
def runEmits (s : ServerState) : List Event → List Emit
  | [] => []
  | e :: rest =>
      match step s e with
      | some (s1, em) => em :: runEmits s1 rest
      | none => runEmits s rest

/-- The well-formed `join` payload `{session_id, station, name}`. -/
def joinPayload (sid st nm : String) : List (String × String) :=
  [("session_id", sid), ("station", st), ("name", nm)]

/-- Processing a sequence of well-formed joins `(session_id, station, name)`
through `handle_join`, tracking only the registry. -/
def processJoins (users : Registry) : List (String × String × String) → Registry
  | [] => users
  | j :: rest =>
      match handle_join (joinPayload j.1 j.2.1 j.2.2) users with
      | some (u, _) => processJoins u rest
      | none => processJoins users rest

/-- The station/name of the most recent join in the list carrying the given
session id, if any. -/
def lastJoin : List (String × String × String) → String → Option UserRecord
  | [], _ => none
  | (sid, st, nm) :: rest, k =>
      match lastJoin rest k with
      | some r => some r
      | none => if sid = k then some (UserRecord.mk st nm) else none

/-- The keys of a registry, in insertion order. -/
def keys (r : Registry) : List String := r.map Prod.fst

/-! ### Helper lemmas about the dict operations -/

theorem lookupKey_dictInsert_self (k : String) (v : UserRecord) (r : Registry) :
    lookupKey (dictInsert k v r) k = some v := by
  induction r with
  | nil => simp [dictInsert, lookupKey]
  | cons hd tl ih =>
      obtain ⟨k0, v0⟩ := hd
      by_cases h : k0 = k
      · simp [dictInsert, h, lookupKey]
      · simp [dictInsert, h, lookupKey, ih]

theorem lookupKey_dictInsert_ne (k k1 : String) (v : UserRecord) (r : Registry)
    (h : k1 ≠ k) : lookupKey (dictInsert k v r) k1 = lookupKey r k1 := by
  have hne : ¬ k = k1 := fun he => h he.symm
  induction r with
  | nil => simp [dictInsert, lookupKey, hne]
  | cons hd tl ih =>
      obtain ⟨k0, v0⟩ := hd
      by_cases h0 : k0 = k
      · subst h0
        simp [dictInsert, lookupKey, hne]
      · simp only [dictInsert, h0, if_false, lookupKey]
        rw [ih]

theorem keys_dictInsert_mem (k : String) (v : UserRecord) (r : Registry)
    (h : k ∈ keys r) : keys (dictInsert k v r) = keys r := by
  induction r with
  | nil => simp [keys] at h
  | cons hd tl ih =>
      obtain ⟨k0, v0⟩ := hd
      by_cases h0 : k0 = k
      · subst h0
        simp [dictInsert, keys]
      · have hm : k ∈ keys tl := by
          simp only [keys, List.map_cons, List.mem_cons] at h
          rcases h with he | hm
          · exact absurd he.symm h0
          · exact hm
        have ih1 := ih hm
        simp only [keys] at ih1
        simp only [dictInsert, h0, if_false, keys, List.map_cons]
        rw [ih1]

theorem keys_dictInsert_not_mem (k : String) (v : UserRecord) (r : Registry)
    (h : k ∉ keys r) : keys (dictInsert k v r) = keys r ++ [k] := by
  induction r with
  | nil => simp [dictInsert, keys]
  | cons hd tl ih =>
      obtain ⟨k0, v0⟩ := hd
      have h0 : ¬ k0 = k := by
        intro he
        apply h
        show k ∈ k0 :: keys tl
        rw [he]
        exact List.mem_cons_self k (keys tl)
      have hm : k ∉ keys tl := by
        intro hmem
        apply h
        show k ∈ k0 :: keys tl
        exact List.mem_cons_of_mem k0 hmem
      have ih1 := ih hm
      simp only [keys] at ih1
      simp only [dictInsert, h0, if_false, keys, List.map_cons]
      rw [ih1]
      exact (List.cons_append k0 (List.map Prod.fst tl) [k]).symm

theorem mem_keys_dictInsert (k k1 : String) (v : UserRecord) (r : Registry) :
    k1 ∈ keys (dictInsert k v r) ↔ k1 = k ∨ k1 ∈ keys r := by
  by_cases hk : k ∈ keys r
  · rw [keys_dictInsert_mem k v r hk]
    constructor
    · exact Or.inr
    · rintro (he | hm)
      · exact he.symm ▸ hk
      · exact hm
  · rw [keys_dictInsert_not_mem k v r hk]
    simp [or_comm]

theorem nodup_keys_dictInsert (k : String) (v : UserRecord) (r : Registry)
    (h : (keys r).Nodup) : (keys (dictInsert k v r)).Nodup := by
  by_cases hk : k ∈ keys r
  · rw [keys_dictInsert_mem k v r hk]
    exact h
  · rw [keys_dictInsert_not_mem k v r hk]
    simp [List.nodup_append, h, hk]

theorem length_dictInsert_mem (k : String) (v : UserRecord) (r : Registry)
    (h : k ∈ keys r) : (dictInsert k v r).length = r.length := by
  induction r with
  | nil => simp [keys] at h
  | cons hd tl ih =>
      obtain ⟨k0, v0⟩ := hd
      by_cases h0 : k0 = k
      · simp [dictInsert, h0]
      · have hm : k ∈ keys tl := by
          simp only [keys, List.map_cons, List.mem_cons] at h
          rcases h with he | hmem
          · exact absurd he.symm h0
          · exact hmem
        simp [dictInsert, h0, ih hm]

theorem dictInsert_dictInsert_same (k : String) (v1 v2 : UserRecord) (r : Registry) :
    dictInsert k v2 (dictInsert k v1 r) = dictInsert k v2 r := by
  induction r with
  | nil => simp [dictInsert]
  | cons hd tl ih =>
      obtain ⟨k0, v0⟩ := hd
      by_cases h0 : k0 = k
      · simp [dictInsert, h0]
      · simp [dictInsert, h0, ih]

/-! ### Helper lemmas about `handle_join` and event sequences -/

theorem handle_join_joinPayload (sid st nm : String) (users : Registry) :
    handle_join (joinPayload sid st nm) users =
      some (dictInsert sid (UserRecord.mk st nm) users,
        Emit.mk "update_users"
          (EmitPayload.usersSnapshot (dictInsert sid (UserRecord.mk st nm) users)) true) := by
  rfl

theorem handle_join_eq_none_iff (data : List (String × String)) (users : Registry) :
    handle_join data users = none ↔
      (lookupKey data "session_id" = none ∨ lookupKey data "station" = none ∨
        lookupKey data "name" = none) := by
  unfold handle_join
  cases h1 : lookupKey data "station" <;> cases h2 : lookupKey data "name" <;>
    cases h3 : lookupKey data "session_id" <;> simp

theorem handle_join_of_lookups (data : List (String × String)) (users : Registry)
    (sid st nm : String)
    (hst : lookupKey data "station" = some st)
    (hnm : lookupKey data "name" = some nm)
    (hsid : lookupKey data "session_id" = some sid) :
    handle_join data users =
      some (dictInsert sid (UserRecord.mk st nm) users,
        Emit.mk "update_users"
          (EmitPayload.usersSnapshot (dictInsert sid (UserRecord.mk st nm) users)) true) := by
  unfold handle_join
  rw [hst, hnm, hsid]

theorem processJoins_cons (sid st nm : String) (rest : List (String × String × String))
    (users : Registry) :
    processJoins users ((sid, st, nm) :: rest) =
      processJoins (dictInsert sid (UserRecord.mk st nm) users) rest := by
  simp only [processJoins, handle_join_joinPayload]

theorem lookupKey_processJoins (js : List (String × String × String)) (r : Registry)
    (k : String) :
    lookupKey (processJoins r js) k = (lastJoin js k).elim (lookupKey r k) some := by
  induction js generalizing r with
  | nil => simp [processJoins, lastJoin]
  | cons j rest ih =>
      obtain ⟨sid, st, nm⟩ := j
      rw [processJoins_cons, ih]
      cases hlast : lastJoin rest k with
      | some rec0 => simp [lastJoin, hlast]
      | none =>
          by_cases hs : sid = k
          · subst hs
            simp [lastJoin, hlast, lookupKey_dictInsert_self]
          · have hk : k ≠ sid := fun he => hs he.symm
            simp [lastJoin, hlast, hs, lookupKey_dictInsert_ne sid k (UserRecord.mk st nm) r hk]

theorem mem_keys_processJoins (js : List (String × String × String)) (r : Registry)
    (k : String) :
    k ∈ keys (processJoins r js) ↔ k ∈ js.map Prod.fst ∨ k ∈ keys r := by
  induction js generalizing r with
  | nil => simp [processJoins]
  | cons j rest ih =>
      obtain ⟨sid, st, nm⟩ := j
      rw [processJoins_cons, ih]
      simp only [mem_keys_dictInsert, List.map_cons, List.mem_cons]
      tauto

theorem nodup_keys_processJoins (js : List (String × String × String)) (r : Registry)
    (h : (keys r).Nodup) : (keys (processJoins r js)).Nodup := by
  induction js generalizing r with
  | nil => simpa [processJoins] using h
  | cons j rest ih =>
      obtain ⟨sid, st, nm⟩ := j
      rw [processJoins_cons]
      exact ih _ (nodup_keys_dictInsert sid (UserRecord.mk st nm) r h)

theorem handle_join_some (data : List (String × String)) (users u : Registry) (em : Emit)
    (h : handle_join data users = some (u, em)) :
    ∃ sid st nm, lookupKey data "station" = some st ∧ lookupKey data "name" = some nm ∧
      lookupKey data "session_id" = some sid ∧
      u = dictInsert sid (UserRecord.mk st nm) users := by
  unfold handle_join at h
  split at h
  · next st nm sid h1 h2 h3 =>
      simp only [Option.some.injEq, Prod.mk.injEq] at h
      exact ⟨sid, st, nm, h1, h2, h3, h.1.symm⟩
  · simp at h

theorem mem_keys_dictInsert_of_mem (k k1 : String) (v : UserRecord) (r : Registry)
    (h : k1 ∈ keys r) : k1 ∈ keys (dictInsert k v r) :=
  (mem_keys_dictInsert k k1 v r).mpr (Or.inr h)

theorem keys_monotone_run (events : List Event) (s : ServerState) (k : String)
    (h : k ∈ keys s.users) : k ∈ keys (run s events).users := by
  induction events generalizing s with
  | nil => simpa [run] using h
  | cons e rest ih =>
      cases e with
      | power_update p =>
          simp only [run, step]
          exact ih s h
      | join data =>
          simp only [run, step]
          cases hj : handle_join data s.users with
          | none =>
              simp only [hj]
              exact ih s h
          | some pr =>
              obtain ⟨u, em⟩ := pr
              simp only [hj]
              obtain ⟨sid, st, nm, _, _, _, hu⟩ := handle_join_some data s.users u em hj
              subst hu
              exact ih (ServerState.mk s.vehicles _)
                (mem_keys_dictInsert_of_mem sid k (UserRecord.mk st nm) s.users h)

theorem run_vehicles (events : List Event) (s : ServerState) :
    (run s events).vehicles = s.vehicles := by
  induction events generalizing s with
  | nil => rfl
  | cons e rest ih =>
      cases e with
      | power_update p =>
          simp only [run, step]
          exact ih s
      | join data =>
          simp only [run, step]
          cases hj : handle_join data s.users with
          | none =>
              simp only [hj]
              exact ih s
          | some pr =>
              obtain ⟨u, em⟩ := pr
              simp only [hj]
              exact ih (ServerState.mk s.vehicles u)

theorem run_vehicles_irrelevant (events : List Event) (v1 v2 : List (String × VehicleRecord))
    (users : Registry) :
    (run (ServerState.mk v1 users) events).users =
      (run (ServerState.mk v2 users) events).users ∧
    runEmits (ServerState.mk v1 users) events = runEmits (ServerState.mk v2 users) events := by
  induction events generalizing users with
  | nil => exact ⟨rfl, rfl⟩
  | cons e rest ih =>
      cases e with
      | power_update p =>
          simp only [run, runEmits, step]
          exact ⟨(ih users).1, by rw [(ih users).2]⟩
      | join data =>
          simp only [run, runEmits, step]
          cases hj : handle_join data users with
          | none =>
              simp only [hj]
              exact ih users
          | some pr =>
              obtain ⟨u, em⟩ := pr
              simp only [hj]
              exact ⟨(ih u).1, by rw [(ih u).2]⟩

/-! ### Claim theorems -/

/-- Claim C1: after any sequence of joins starting from the empty registry, the
registry holds exactly one entry per distinct session id seen so far (keys are
duplicate-free and present exactly for the session ids joined), each entry
carries the station/name of the most recent join with that session id, and two
joins with distinct session ids but identical station and name produce two
separate entries. -/
theorem joinSequence_registry_spec (js : List (String × String × String)) :
    (keys (processJoins [] js)).Nodup ∧
    (∀ k, lookupKey (processJoins [] js) k = lastJoin js k) ∧
    (∀ k, k ∈ keys (processJoins [] js) ↔ k ∈ js.map Prod.fst) ∧
    (∀ sa sb st nm, sa ≠ sb →
      keys (processJoins [] [(sa, st, nm), (sb, st, nm)]) = [sa, sb]) := by
  refine ⟨nodup_keys_processJoins js [] (by simp [keys]), ?_, ?_, ?_⟩
  · intro k
    rw [lookupKey_processJoins]
    cases lastJoin js k <;> rfl
  · intro k
    rw [mem_keys_processJoins]
    simp [keys]
  · intro sa sb st nm hne
    rw [processJoins_cons, processJoins_cons]
    simp only [processJoins]
    simp [dictInsert, keys, hne]

/-- Witness for C1 at the concrete inputs of the spec's scenarios. -/
theorem joinSequence_registry_spec_witness :
    ("s1" : String) ≠ "s2" ∧
    keys (processJoins [] [("s1", "helm", "Han"), ("s2", "helm", "Han")]) = ["s1", "s2"] :=
  ⟨by decide,
    (joinSequence_registry_spec [("s1", "helm", "Han"), ("s2", "helm", "Han")]).2.2.2
      "s1" "s2" "helm" "Han" (by decide)⟩

/-- Claim C2: a `join` whose payload carries `session_id`, `station` and `name`
first stores the record under its session id and then broadcasts the full
post-store registry to everyone (sender included) as `update_users`. -/
theorem handle_join_stores_then_broadcasts (data : List (String × String))
    (users : Registry) (sid st nm : String)
    (hst : lookupKey data "station" = some st)
    (hnm : lookupKey data "name" = some nm)
    (hsid : lookupKey data "session_id" = some sid) :
    handle_join data users =
      some (dictInsert sid (UserRecord.mk st nm) users,
        Emit.mk "update_users"
          (EmitPayload.usersSnapshot (dictInsert sid (UserRecord.mk st nm) users)) true) :=
  handle_join_of_lookups data users sid st nm hst hnm hsid

/-- Witness for C2: the spec's end-to-end scenario, second join; the broadcast
carries both entries. -/
theorem handle_join_stores_then_broadcasts_witness :
    handle_join (joinPayload "s2" "engineering" "Chewie")
        [("s1", UserRecord.mk "helm" "Han")] =
      some ([("s1", UserRecord.mk "helm" "Han"), ("s2", UserRecord.mk "engineering" "Chewie")],
        Emit.mk "update_users"
          (EmitPayload.usersSnapshot
            [("s1", UserRecord.mk "helm" "Han"),
              ("s2", UserRecord.mk "engineering" "Chewie")]) true) := by
  have h := handle_join_stores_then_broadcasts (joinPayload "s2" "engineering" "Chewie")
      [("s1", UserRecord.mk "helm" "Han")] "s2" "engineering" "Chewie" rfl rfl rfl
  exact h

/-- Claim C3: re-joining with the same session id overwrites the previous
record (last write wins): the end state equals the one obtained by processing
only the second join, and the entry count does not grow. -/
theorem rejoin_overwrites_lastWriteWins (users : Registry) (sid st1 nm1 st2 nm2 : String) :
    processJoins users [(sid, st1, nm1), (sid, st2, nm2)] =
      processJoins users [(sid, st2, nm2)] ∧
    (processJoins users [(sid, st1, nm1), (sid, st2, nm2)]).length =
      (processJoins users [(sid, st1, nm1)]).length := by
  constructor
  · rw [processJoins_cons, processJoins_cons, processJoins_cons]
    simp only [processJoins]
    exact dictInsert_dictInsert_same sid (UserRecord.mk st1 nm1) (UserRecord.mk st2 nm2) users
  · rw [processJoins_cons, processJoins_cons, processJoins_cons]
    simp only [processJoins]
    exact length_dictInsert_mem sid (UserRecord.mk st2 nm2) _
      ((mem_keys_dictInsert sid sid (UserRecord.mk st1 nm1) users).mpr (Or.inl rfl))

/-- Claim C4: a `power_update` event is re-broadcast to every connected client,
sender included, with the payload passed through exactly, and the server state
is untouched. -/
theorem handle_power_echoes_payload (s : ServerState) (p : JValue) :
    step s (Event.power_update p) =
      some (s, Emit.mk "power_update" (EmitPayload.powerData p) true) := rfl

/-- Claim C5: `handle_join` faults (an unhandled `KeyError`) exactly when the
payload is missing one of the keys `session_id`, `station`, `name`; with all
three present (any string values, empty allowed) it succeeds. -/
theorem handle_join_faults_iff_missing_key (data : List (String × String))
    (users : Registry) :
    handle_join data users = none ↔
      (lookupKey data "session_id" = none ∨ lookupKey data "station" = none ∨
        lookupKey data "name" = none) :=
  handle_join_eq_none_iff data users

/-- Claim C6: the `power_update` handler does not depend on the registry: from
any two server states (any vehicle catalog, any registry, including empty) and
the same payload, it succeeds and emits the identical broadcast. -/
theorem handle_power_registry_noninterference (s1 s2 : ServerState) (p : JValue) :
    (step s1 (Event.power_update p)).map Prod.snd =
      (step s2 (Event.power_update p)).map Prod.snd ∧
    (step s1 (Event.power_update p)).isSome = true ∧
    (step s2 (Event.power_update p)).isSome = true :=
  ⟨rfl, rfl, rfl⟩

/-- Claim C7: no handler removes registry entries: once a session id is a key
of the registry, it remains one after any further sequence of events. -/
theorem registry_keys_monotone (s : ServerState) (events : List Event) (k : String)
    (h : k ∈ keys s.users) : k ∈ keys (run s events).users :=
  keys_monotone_run events s k h

/-- Witness for C7: key `s1` survives a power update and a later join. -/
theorem registry_keys_monotone_witness :
    "s1" ∈ keys ((ServerState.mk VEHICLES [("s1", UserRecord.mk "helm" "Han")]).users) ∧
    "s1" ∈ keys ((run (ServerState.mk VEHICLES [("s1", UserRecord.mk "helm" "Han")])
        [Event.power_update (JValue.num 1), Event.join (joinPayload "s2" "guns" "Luke")]).users) :=
  ⟨by decide,
    registry_keys_monotone (ServerState.mk VEHICLES [("s1", UserRecord.mk "helm" "Han")])
      [Event.power_update (JValue.num 1), Event.join (joinPayload "s2" "guns" "Luke")]
      "s1" (by decide)⟩

/-- Claim C8: the static vehicle catalog is dead configuration: running any
event sequence leaves it unchanged, and neither the registry evolution nor any
broadcast depends on its contents. -/
theorem vehicles_never_read_or_mutated (events : List Event)
    (v1 v2 : List (String × VehicleRecord)) (users : Registry) :
    (run (ServerState.mk VEHICLES users) events).vehicles = VEHICLES ∧
    (run (ServerState.mk v1 users) events).users =
      (run (ServerState.mk v2 users) events).users ∧
    runEmits (ServerState.mk v1 users) events = runEmits (ServerState.mk v2 users) events :=
  ⟨run_vehicles events (ServerState.mk VEHICLES users),
    (run_vehicles_irrelevant events v1 v2 users).1,
    (run_vehicles_irrelevant events v1 v2 users).2⟩

/-- Claim C9: a `join` payload missing one of the expected keys faults before
any mutation: the registry (whole state) is unchanged and no broadcast goes
out. -/
theorem join_missing_key_leaves_state_unchanged (s : ServerState)
    (data : List (String × String))
    (h : lookupKey data "session_id" = none ∨ lookupKey data "station" = none ∨
      lookupKey data "name" = none) :
    run s [Event.join data] = s ∧ runEmits s [Event.join data] = [] := by
  have hnone := (handle_join_eq_none_iff data s.users).mpr h
  constructor
  · simp [run, step, hnone]
  · simp [runEmits, step, hnone]

/-- Witness for C9: a payload with only `station`, handled from a one-user
state, changes nothing and emits nothing. -/
theorem join_missing_key_leaves_state_unchanged_witness :
    run (ServerState.mk VEHICLES [("s1", UserRecord.mk "helm" "Han")])
        [Event.join [("station", "helm")]] =
      ServerState.mk VEHICLES [("s1", UserRecord.mk "helm" "Han")] ∧
    runEmits (ServerState.mk VEHICLES [("s1", UserRecord.mk "helm" "Han")])
        [Event.join [("station", "helm")]] = [] :=
  join_missing_key_leaves_state_unchanged
    (ServerState.mk VEHICLES [("s1", UserRecord.mk "helm" "Han")])
    [("station", "helm")] (Or.inl rfl)

/-- Claim C10: `handle_join` reads only the keys `session_id`, `station` and
`name` from its payload (payloads agreeing on those three are handled
identically, so extra keys are ignored), and the stored record is exactly the
two-field `{station, name}` built from them. -/
theorem join_ignores_extra_keys (d1 d2 : List (String × String)) (users : Registry)
    (hsid : lookupKey d1 "session_id" = lookupKey d2 "session_id")
    (hst : lookupKey d1 "station" = lookupKey d2 "station")
    (hnm : lookupKey d1 "name" = lookupKey d2 "name") :
    handle_join d1 users = handle_join d2 users ∧
    (∀ sid st nm, lookupKey d1 "session_id" = some sid →
      lookupKey d1 "station" = some st → lookupKey d1 "name" = some nm →
      (handle_join d1 users).map (fun pr => lookupKey pr.1 sid) =
        some (some (UserRecord.mk st nm))) := by
  constructor
  · unfold handle_join
    rw [hst, hnm, hsid]
  · intro sid st nm h1 h2 h3
    rw [handle_join_of_lookups d1 users sid st nm h2 h3 h1]
    simp [lookupKey_dictInsert_self]

/-- Witness for C10: an extra `color` key changes nothing, and the stored
record is exactly the station/name pair. -/
theorem join_ignores_extra_keys_witness :
    handle_join
        [("session_id", "s1"), ("station", "helm"), ("name", "Han"), ("color", "red")] [] =
      handle_join (joinPayload "s1" "helm" "Han") [] ∧
    (handle_join
        [("session_id", "s1"), ("station", "helm"), ("name", "Han"), ("color", "red")] []).map
      (fun pr => lookupKey pr.1 "s1") = some (some (UserRecord.mk "helm" "Han")) := by
  have h := join_ignores_extra_keys
      [("session_id", "s1"), ("station", "helm"), ("name", "Han"), ("color", "red")]
      (joinPayload "s1" "helm" "Han") [] rfl rfl rfl
  exact ⟨h.1, h.2 "s1" "helm" "Han" rfl rfl rfl⟩

end BridgeSim
